import Mathlib

/-!
Verification of the PlutoSDR source block (`src/lib/pluto/pluto_source_c.cc`):
a shallow embedding of its ring buffer, acquisition callback and `work`
consumer, with theorems about the spec's claims.

Modelling conventions:
* 16-bit signed samples are `Int` values (the shorts stored in the slots).
* The float output of `volk_16i_s32f_convert_32f` is modelled over `ℚ`;
  for 16-bit inputs divided by the power-of-two scale 2048 the IEEE float
  computation is exact, so `ℚ` is a faithful model of the produced values.
* External driver calls (`plutosdr_open`, `plutosdr_cancel_async`,
  `_thread.join`, `notify_one`) do not touch the fields modelled here and
  are embedded as no-ops on the state.
* Condition-variable blocking is modelled by the predicate
  `work_wouldBlock` (the wait predicate of the `while` loop at the top of
  `work`); the post-wait body runs on the state observed when the wait
  predicate turns false.
-/

namespace Pluto

/-- `BUF_LEN` : default slot length in bytes, `512 * 16 * 100`. -/
def BUF_LEN : Nat := 512 * 16 * 100

/-- `BUF_NUM` : default number of ring slots. -/
def BUF_NUM : Nat := 15

/-- `BUF_SKIP` : number of initial callback deliveries to discard. -/
def BUF_SKIP : Nat := 1

/-- `BYTES_PER_SAMPLE` : bytes per complex sample (two 16-bit words). -/
def BYTES_PER_SAMPLE : Nat := 4

/-- One raw block: the 16-bit signed words of a slot, in memory order
(interleaved I/Q). -/
abbrev Block := List Int

/-- One produced complex sample, as (re, im) rationals. -/
abbrev Sample := ℚ × ℚ

/-- The fields of `pluto_source_c` that the ring buffer, callback and
`work` read or write. `buf` is the slot array `_buf`, `lut` is the
`_lut` table built in the constructor (unused by the 16-bit path). -/
structure State where
  buf_num : Nat
  buf_len : Nat
  buf : List Block
  buf_head : Nat
  buf_used : Nat
  buf_offset : Nat
  samp_avail : Nat
  skipped : Nat
  running : Bool
  lut : List ℚ
  deriving Repr, DecidableEq

/-- Parsed `buffers=` / `buflen=` arguments (absent key ↦ `none`). -/
structure Args where
  buffers : Option Nat
  buflen : Option Nat

/-- The `_buf_num` computation of the constructor: the parsed `buffers`
value, with 0 (or absence, which leaves the zero-initialised field)
replaced by `BUF_NUM`. -/
def init_buf_num (a : Args) : Nat :=
  let n := a.buffers.getD 0
  if n = 0 then BUF_NUM else n

/-- The `_buf_len` computation of the constructor: the parsed `buflen`
value, forced to `BUF_LEN` when zero (including absence) or not a
multiple of 512. -/
def init_buf_len (a : Args) : Nat :=
  let l := a.buflen.getD 0
  if l = 0 ∨ l % 512 ≠ 0 then BUF_LEN else l

/-- The `_lut` table built in the constructor:
`(i - 127.4f) / 128.0f` for `i = 0 .. 255`. -/
def init_lut : List ℚ :=
  (List.range 256).map (fun i => ((i : ℚ) - 1274 / 10) / 128)

/-- The constructor `pluto_source_c::pluto_source_c`, restricted to the
modelled fields: parses `buffers`/`buflen`, applies defaults, sets
`_samp_avail = _buf_len / BYTES_PER_SAMPLE`, builds `_lut`, allocates
the slot array, and leaves head/used/offset/skipped at zero with
`_running = false`. -/
def construct (a : Args) : State :=
  let n := init_buf_num a
  let l := init_buf_len a
  { buf_num := n
    buf_len := l
    buf := List.replicate n []
    buf_head := 0
    buf_used := 0
    buf_offset := 0
    samp_avail := l / BYTES_PER_SAMPLE
    skipped := 0
    running := false
    lut := init_lut }

/-- `pluto_source_c::start` : sets `_running = true`, spawns the
acquisition thread (external), returns `true`. -/
def start (s : State) : State × Bool :=
  ({ s with running := true }, true)

/-- `pluto_source_c::stop` : sets `_running = false`, cancels the async
read and joins the thread (both external no-ops on the modelled state),
returns `true`. -/
def stop (s : State) : State × Bool :=
  ({ s with running := false }, true)

/-- The tail of `plutosdr_wait` after `plutosdr_read_async` returns:
the acquisition loop marks `_running = false` before exiting. -/
def plutosdr_wait_exit (s : State) : State :=
  { s with running := false }

/-- The locked section of `plutosdr_callback` (the ring-buffer push):
copies the block into the slot at `tail = (head + used) % N`; if the
buffer is full advances `head` (overflow, the returned flag, printed as
"O"), otherwise increments `used`. -/
def ring_push (s : State) (b : Block) : State × Bool :=
  let buf_tail := (s.buf_head + s.buf_used) % s.buf_num
  let s' := { s with buf := s.buf.set buf_tail b }
  if s'.buf_used = s'.buf_num then
    ({ s' with buf_head := (s'.buf_head + 1) % s'.buf_num }, true)
  else
    ({ s' with buf_used := s'.buf_used + 1 }, false)

/-- `pluto_source_c::plutosdr_callback` : discards the first `BUF_SKIP`
deliveries (incrementing `_skipped`), then pushes each delivered block
into the ring buffer. The returned flag reports overflow. -/
def plutosdr_callback (s : State) (b : Block) : State × Bool :=
  if s.skipped < BUF_SKIP then
    ({ s with skipped := s.skipped + 1 }, false)
  else
    ring_push s b

/-- One complex sample converted from 16-bit words: word `2k` is I,
word `2k+1` is Q, each divided by the scale 2048
(`volk_16i_s32f_convert_32f` with `scaling = 2048.0f`). -/
def conv16 (blk : Block) (k : Nat) : Sample :=
  (((blk.getD (2 * k) 0 : Int) : ℚ) / 2048,
   ((blk.getD (2 * k + 1) 0 : Int) : ℚ) / 2048)

/-- The samples produced by one `volk_16i_s32f_convert_32f` call on
`_buf[_buf_head] + _buf_offset * 2` for `2 * n` words: the `n` samples
of `blk` at indices `off, off+1, …, off+n-1`. -/
def convertSlice (blk : Block) (off n : Nat) : List Sample :=
  (List.range n).map (fun j => conv16 blk (off + j))

/-- The drain loop of `work` (`while (noutput_items && _buf_used)`):
converts `nout = min noutput_items samp_avail` samples from the block at
`head`, then either advances the ring (block exhausted: `head` steps,
`used` drops, `samp_avail` resets to `_buf_len / BYTES_PER_SAMPLE`,
`offset` resets to 0) or moves the intra-block offset forward. Returns
the final state and the samples written to `out` in order. -/
def work_loop (s : State) (noutput_items : Nat) : State × List Sample :=
  if h : noutput_items = 0 ∨ s.buf_used = 0 then (s, [])
  else
    let nout := min noutput_items s.samp_avail
    let out := convertSlice (s.buf.getD s.buf_head []) s.buf_offset nout
    if s.samp_avail - nout = 0 then
      let r := work_loop
        { s with buf_head := (s.buf_head + 1) % s.buf_num
                 buf_used := s.buf_used - 1
                 samp_avail := s.buf_len / BYTES_PER_SAMPLE
                 buf_offset := 0 }
        (noutput_items - nout)
      (r.1, out ++ r.2)
    else
      let r := work_loop
        { s with samp_avail := s.samp_avail - nout
                 buf_offset := s.buf_offset + nout }
        (noutput_items - nout)
      (r.1, out ++ r.2)
  termination_by noutput_items + s.buf_used
  decreasing_by
  · simp only [not_or] at h
    omega
  · simp only [not_or] at h
    rcases Nat.le_total noutput_items s.samp_avail with hle | hle
    · rw [Nat.min_eq_left hle] at *
      omega
    · rw [Nat.min_eq_right hle] at *
      omega

/-- The wait predicate of the condition-variable loop at the top of
`work` (`while (_buf_used < 3 && _running)`): `true` exactly when the
call suspends. -/
def work_wouldBlock (s : State) : Bool :=
  decide (s.buf_used < 3) && s.running

/-- `pluto_source_c::work` from the state observed once the wait
predicate is false: returns `none` for `WORK_DONE` when `_running` is
false, otherwise runs the drain loop and returns the produced samples
(the int return value of `work` is their count). -/
def work (s : State) (noutput_items : Nat) : State × Option (List Sample) :=
  if s.running = false then (s, none)
  else
    let r := work_loop s noutput_items
    (r.1, some r.2)

/-- Slot capacity in samples, `_buf_len / BYTES_PER_SAMPLE`. -/
def cap (s : State) : Nat := s.buf_len / BYTES_PER_SAMPLE

/-- Structural invariant of the modelled state: a nonempty ring, `head`
in range, `used` bounded by the slot count, and the consumer cursor
satisfying `samp_avail + buf_offset = cap`. -/
def Inv (s : State) : Prop :=
  0 < s.buf_num ∧
  s.buf_head < s.buf_num ∧
  s.buf_used ≤ s.buf_num ∧
  s.samp_avail + s.buf_offset = cap s

instance (s : State) : Decidable (Inv s) := by
  unfold Inv
  infer_instance

/-- A scheduler event: a hardware callback delivery or a `work` call
(with its `noutput_items` request). -/
inductive Ev where
  | push : Block → Ev
  | work : Nat → Ev

/-- Trace counters: deliveries pushed into the ring (past the skip
window), blocks dropped by overflow, samples produced by `work`. -/
structure Cnt where
  pushed : Nat
  dropped : Nat
  produced : Nat
  deriving Repr, DecidableEq

/-- One trace step: a push event runs the callback (counting pushes past
the skip window and overflow drops), a work event runs `work` (counting
the samples it returns). -/
def step (p : State × Cnt) (e : Ev) : State × Cnt :=
  match e with
  | Ev.push b =>
      if p.1.skipped < BUF_SKIP then
        ({ p.1 with skipped := p.1.skipped + 1 }, p.2)
      else
        let r := ring_push p.1 b
        (r.1, { p.2 with
                  pushed := p.2.pushed + 1
                  dropped := p.2.dropped + (if r.2 then 1 else 0) })
  | Ev.work n =>
      let r := work p.1 n
      (r.1, { p.2 with produced := p.2.produced + (r.2.getD []).length })

/-- Accounting relation carried along a trace:
`produced + used * cap + dropped * cap = pushed * cap + offset`. -/
def Acct (p : State × Cnt) : Prop :=
  Inv p.1 ∧
  p.2.produced + p.1.buf_used * cap p.1 + p.2.dropped * cap p.1
    = p.2.pushed * cap p.1 + p.1.buf_offset

/-- A concrete full-ring running state (2 slots of 8 bytes, both
filled), past the skip window. -/
def c1s : State :=
  { buf_num := 2, buf_len := 8, buf := [[1, 1, 1, 1], [2, 2, 2, 2]],
    buf_head := 0, buf_used := 2, buf_offset := 0, samp_avail := 2,
    skipped := 1, running := true, lut := [] }

/-- A stopped state with two unread blocks still buffered. -/
def c2s : State :=
  { buf_num := 2, buf_len := 8, buf := [[1, 2, 3, 4], [5, 6, 7, 8]],
    buf_head := 0, buf_used := 2, buf_offset := 0, samp_avail := 2,
    skipped := 1, running := false, lut := [] }

/-- A constructed-and-started instance with 4 slots of 512 bytes. -/
def c3s0 : State := (start (construct ⟨some 4, some 512⟩)).1

/-- `c3s0` after four deliveries: the first is skipped, the next three
blocks are pushed — enough to satisfy the prefill threshold. -/
def c3s1 : State :=
  (plutosdr_callback
    ((plutosdr_callback
      ((plutosdr_callback ((plutosdr_callback c3s0 []).1) [1, 2]).1)
      [3, 4]).1)
    [5, 6]).1

/-- `c3s1` after a `work` call (entered with `used = 3`, past the
prefill wait) that drained two of the three blocks (256 samples
requested = two slots' capacity). -/
def c3s2 : State := (work c3s1 256).1

/-- The consumer state inside the `c3s1` drain after the first block. -/
def c3m : State :=
  { c3s1 with buf_head := (c3s1.buf_head + 1) % c3s1.buf_num
              buf_used := c3s1.buf_used - 1
              samp_avail := c3s1.buf_len / BYTES_PER_SAMPLE
              buf_offset := 0 }

/-- The consumer state inside the `c3s1` drain after the second
block. -/
def c3m2 : State :=
  { c3m with buf_head := (c3m.buf_head + 1) % c3m.buf_num
             buf_used := c3m.buf_used - 1
             samp_avail := c3m.buf_len / BYTES_PER_SAMPLE
             buf_offset := 0 }

/-- A running state whose head block holds the boundary codes -32768 and
32767 and the midpoint code 0. -/
def c4s : State :=
  { buf_num := 2, buf_len := 8,
    buf := [[-32768, 32767, 0, 5], [100, -100, 7, 8]],
    buf_head := 0, buf_used := 2, buf_offset := 0, samp_avail := 2,
    skipped := 1, running := true, lut := [] }

/-- A fresh running state with two empty slots of 2 samples capacity. -/
def c5s : State :=
  { buf_num := 2, buf_len := 8, buf := [[], []], buf_head := 0,
    buf_used := 0, buf_offset := 0, samp_avail := 2, skipped := 1,
    running := true, lut := [] }

/-- Three deliveries (the third overflows the 2-slot ring) followed by a
draining `work` call. -/
def c5es : List Ev :=
  [Ev.push [1, 2, 3, 4], Ev.push [5, 6, 7, 8], Ev.push [9, 10, 11, 12],
   Ev.work 10]

/-- The state of `c5s` after the three deliveries of `c5es`: the third
overflowed into slot 0 and advanced `head` to 1. -/
def s5p3 : State :=
  { buf_num := 2, buf_len := 8, buf := [[9, 10, 11, 12], [5, 6, 7, 8]],
    buf_head := 1, buf_used := 2, buf_offset := 0, samp_avail := 2,
    skipped := 1, running := true, lut := [] }

/-- The consumer state inside the `s5p3` drain after the first block. -/
def s5m : State :=
  { s5p3 with buf_head := (s5p3.buf_head + 1) % s5p3.buf_num
              buf_used := s5p3.buf_used - 1
              samp_avail := s5p3.buf_len / BYTES_PER_SAMPLE
              buf_offset := 0 }

/-- The consumer state inside the `s5p3` drain after the second
block. -/
def s5m2 : State :=
  { s5m with buf_head := (s5m.buf_head + 1) % s5m.buf_num
             buf_used := s5m.buf_used - 1
             samp_avail := s5m.buf_len / BYTES_PER_SAMPLE
             buf_offset := 0 }

/-- A fresh state that has not skipped any delivery yet. -/
def c6s : State :=
  { buf_num := 2, buf_len := 8, buf := [[], []], buf_head := 0,
    buf_used := 0, buf_offset := 0, samp_avail := 2, skipped := 0,
    running := true, lut := [] }

/-- A small mid-stream state satisfying the structural invariant. -/
def c8s : State :=
  { buf_num := 3, buf_len := 16, buf := [[], [], []], buf_head := 1,
    buf_used := 2, buf_offset := 1, samp_avail := 3, skipped := 1,
    running := true, lut := [] }

theorem convertSlice_length (blk : Block) (off n : Nat) :
    (convertSlice blk off n).length = n := by
  simp [convertSlice]

theorem convertSlice_getD (blk : Block) (off n j : Nat) (d : Sample)
    (hj : j < n) : (convertSlice blk off n).getD j d = conv16 blk (off + j) := by
  simp [convertSlice, List.getD, List.getElem?_map, List.getElem?_range, hj]

theorem ring_push_full (s : State) (b : Block)
    (hfull : s.buf_used = s.buf_num) (hh : s.buf_head < s.buf_num) :
    ring_push s b =
      ({ s with buf := s.buf.set s.buf_head b
                buf_head := (s.buf_head + 1) % s.buf_num }, true) := by
  have ht : (s.buf_head + s.buf_used) % s.buf_num = s.buf_head := by
    rw [hfull, Nat.add_mod_right, Nat.mod_eq_of_lt hh]
  simp [ring_push, ht, hfull, Nat.mod_eq_of_lt hh]

theorem ring_push_not_full (s : State) (b : Block)
    (hne : s.buf_used ≠ s.buf_num) :
    ring_push s b =
      ({ s with buf := s.buf.set ((s.buf_head + s.buf_used) % s.buf_num) b
                buf_used := s.buf_used + 1 }, false) := by
  simp [ring_push, hne]

theorem Inv_ring_push (s : State) (b : Block) (hInv : Inv s) :
    Inv (ring_push s b).1 ∧
    (ring_push s b).1.buf_num = s.buf_num ∧
    (ring_push s b).1.buf_len = s.buf_len ∧
    (ring_push s b).1.buf_offset = s.buf_offset ∧
    (ring_push s b).1.samp_avail = s.samp_avail ∧
    (ring_push s b).1.skipped = s.skipped ∧
    (ring_push s b).1.running = s.running ∧
    ((ring_push s b).2 = true → (ring_push s b).1.buf_used = s.buf_used) ∧
    ((ring_push s b).2 = false → (ring_push s b).1.buf_used = s.buf_used + 1) := by
  obtain ⟨h0, hh, hu, hc⟩ := hInv
  by_cases hfull : s.buf_used = s.buf_num
  · rw [ring_push_full s b hfull hh]
    refine ⟨⟨h0, Nat.mod_lt _ h0, hu, hc⟩, ?_⟩
    simp
  · rw [ring_push_not_full s b hfull]
    refine ⟨⟨h0, hh, ?_, hc⟩, ?_⟩
    · show s.buf_used + 1 ≤ s.buf_num
      omega
    · simp

theorem Inv_plutosdr_callback (s : State) (b : Block) (hInv : Inv s) :
    Inv (plutosdr_callback s b).1 := by
  unfold plutosdr_callback
  by_cases hskip : s.skipped < BUF_SKIP
  · simpa [hskip, Inv, cap] using hInv
  · simpa [hskip] using (Inv_ring_push s b hInv).1

theorem work_loop_stop (s : State) (n : Nat) (h : n = 0 ∨ s.buf_used = 0) :
    work_loop s n = (s, []) := by
  unfold work_loop
  rw [dif_pos h]

theorem work_loop_adv (s : State) (n : Nat)
    (h : ¬(n = 0 ∨ s.buf_used = 0))
    (hex : s.samp_avail - min n s.samp_avail = 0) :
    work_loop s n =
      ((work_loop
          { s with buf_head := (s.buf_head + 1) % s.buf_num
                   buf_used := s.buf_used - 1
                   samp_avail := s.buf_len / BYTES_PER_SAMPLE
                   buf_offset := 0 }
          (n - min n s.samp_avail)).1,
       convertSlice (s.buf.getD s.buf_head []) s.buf_offset
           (min n s.samp_avail) ++
         (work_loop
           { s with buf_head := (s.buf_head + 1) % s.buf_num
                    buf_used := s.buf_used - 1
                    samp_avail := s.buf_len / BYTES_PER_SAMPLE
                    buf_offset := 0 }
           (n - min n s.samp_avail)).2) := by
  conv_lhs => rw [work_loop]
  rw [dif_neg h, if_pos hex]

theorem work_loop_cont (s : State) (n : Nat)
    (h : ¬(n = 0 ∨ s.buf_used = 0))
    (hex : s.samp_avail - min n s.samp_avail ≠ 0) :
    work_loop s n =
      ((work_loop
          { s with samp_avail := s.samp_avail - min n s.samp_avail
                   buf_offset := s.buf_offset + min n s.samp_avail }
          (n - min n s.samp_avail)).1,
       convertSlice (s.buf.getD s.buf_head []) s.buf_offset
           (min n s.samp_avail) ++
         (work_loop
           { s with samp_avail := s.samp_avail - min n s.samp_avail
                    buf_offset := s.buf_offset + min n s.samp_avail }
           (n - min n s.samp_avail)).2) := by
  conv_lhs => rw [work_loop]
  rw [dif_neg h, if_neg hex]

/-- Master lemma about the drain loop: it preserves the invariant,
leaves configuration and flags untouched, never increases `used`, and
its sample count satisfies the conservation equation
`produced + used' * cap + offset = used * cap + offset'`. -/
theorem work_loop_spec (s : State) (n : Nat) (hInv : Inv s) :
    Inv (work_loop s n).1 ∧
    (work_loop s n).1.buf_num = s.buf_num ∧
    (work_loop s n).1.buf_len = s.buf_len ∧
    (work_loop s n).1.skipped = s.skipped ∧
    (work_loop s n).1.running = s.running ∧
    (work_loop s n).1.lut = s.lut ∧
    (work_loop s n).1.buf_used ≤ s.buf_used ∧
    (work_loop s n).2.length + (work_loop s n).1.buf_used * cap s + s.buf_offset
      = s.buf_used * cap s + (work_loop s n).1.buf_offset := by
  revert hInv
  induction s, n using work_loop.induct with
  | case1 s n h =>
    intro hInv
    rw [work_loop_stop s n h]
    exact ⟨hInv, rfl, rfl, rfl, rfl, rfl, le_refl _, by simp⟩
  | case2 s n h nout hex ih =>
    intro hInv
    unfold nout at hex ih
    obtain ⟨h0, hh, hu, hc⟩ := hInv
    simp only [not_or] at h
    have hsa : min n s.samp_avail = s.samp_avail := by omega
    have hInv' : Inv { s with buf_head := (s.buf_head + 1) % s.buf_num
                              buf_used := s.buf_used - 1
                              samp_avail := s.buf_len / BYTES_PER_SAMPLE
                              buf_offset := 0 } := by
      refine ⟨h0, Nat.mod_lt _ h0, ?_, ?_⟩
      · show s.buf_used - 1 ≤ s.buf_num
        omega
      · show s.buf_len / BYTES_PER_SAMPLE + 0 = _
        simp [cap]
    obtain ⟨ihInv, ihnum, ihlen, ihskip, ihrun, ihlut, ihused, ihacct⟩ := ih hInv'
    rw [work_loop_adv s n (by omega) hex]
    dsimp only at ihnum ihlen ihskip ihrun ihlut ihused ihacct ⊢
    refine ⟨ihInv, ihnum, ihlen, ihskip, ihrun, ihlut, by omega, ?_⟩
    simp only [List.length_append, convertSlice_length, hsa] at *
    simp only [cap] at *
    have hmul : (s.buf_used - 1) * (s.buf_len / BYTES_PER_SAMPLE) +
        s.buf_len / BYTES_PER_SAMPLE = s.buf_used * (s.buf_len / BYTES_PER_SAMPLE) := by
      have h1 : s.buf_used - 1 + 1 = s.buf_used := by omega
      calc (s.buf_used - 1) * (s.buf_len / BYTES_PER_SAMPLE) + s.buf_len / BYTES_PER_SAMPLE
          = (s.buf_used - 1 + 1) * (s.buf_len / BYTES_PER_SAMPLE) := by
            rw [Nat.succ_mul]
        _ = s.buf_used * (s.buf_len / BYTES_PER_SAMPLE) := by rw [h1]
    linarith [ihacct, hc, hmul]
  | case3 s n h nout hex ih =>
    intro hInv
    unfold nout at hex ih
    obtain ⟨h0, hh, hu, hc⟩ := hInv
    simp only [not_or] at h
    have hle : min n s.samp_avail ≤ s.samp_avail := Nat.min_le_right _ _
    have hInv' : Inv { s with samp_avail := s.samp_avail - min n s.samp_avail
                              buf_offset := s.buf_offset + min n s.samp_avail } := by
      refine ⟨h0, hh, hu, ?_⟩
      show s.samp_avail - min n s.samp_avail +
        (s.buf_offset + min n s.samp_avail) = _
      simp only [cap] at hc ⊢
      omega
    obtain ⟨ihInv, ihnum, ihlen, ihskip, ihrun, ihlut, ihused, ihacct⟩ := ih hInv'
    rw [work_loop_cont s n (by omega) hex]
    dsimp only at ihnum ihlen ihskip ihrun ihlut ihused ihacct ⊢
    refine ⟨ihInv, ihnum, ihlen, ihskip, ihrun, ihlut, ihused, ?_⟩
    simp only [List.length_append, convertSlice_length] at *
    simp only [cap] at *
    linarith [ihacct, hc]

/-- Fields of the state that a callback delivery never changes. -/
theorem plutosdr_callback_fields (s : State) (b : Block) :
    (plutosdr_callback s b).1.buf_num = s.buf_num ∧
    (plutosdr_callback s b).1.buf_len = s.buf_len ∧
    (plutosdr_callback s b).1.buf_offset = s.buf_offset ∧
    (plutosdr_callback s b).1.samp_avail = s.samp_avail ∧
    (plutosdr_callback s b).1.running = s.running ∧
    (plutosdr_callback s b).1.lut = s.lut ∧
    s.skipped ≤ (plutosdr_callback s b).1.skipped := by
  unfold plutosdr_callback ring_push
  by_cases hskip : s.skipped < BUF_SKIP
  · simp [hskip]
  · simp only [hskip, if_false]
    split <;> simp

/-- Along any sequence of callback deliveries the invariant is kept and
the ring geometry, the cursor and `skipped`-monotonicity are stable. -/
theorem Inv_foldl_callback (bs : List Block) (s : State) (hInv : Inv s) :
    Inv (bs.foldl (fun t c => (plutosdr_callback t c).1) s) ∧
    (bs.foldl (fun t c => (plutosdr_callback t c).1) s).buf_num = s.buf_num ∧
    s.skipped ≤ (bs.foldl (fun t c => (plutosdr_callback t c).1) s).skipped := by
  induction bs generalizing s with
  | nil => exact ⟨hInv, rfl, le_refl _⟩
  | cons b bs ih =>
    simp only [List.foldl_cons]
    obtain ⟨h1, h2, h3⟩ := ih (plutosdr_callback s b).1 (Inv_plutosdr_callback s b hInv)
    obtain ⟨hnum, _, _, _, _, _, hskip⟩ := plutosdr_callback_fields s b
    exact ⟨h1, h2.trans hnum, le_trans hskip h3⟩

theorem step_push_skip (p : State × Cnt) (b : Block)
    (hskip : p.1.skipped < BUF_SKIP) :
    step p (Ev.push b) = ({ p.1 with skipped := p.1.skipped + 1 }, p.2) := by
  simp [step, hskip]

theorem step_push_go (p : State × Cnt) (b : Block)
    (hskip : ¬ p.1.skipped < BUF_SKIP) :
    step p (Ev.push b) =
      ((ring_push p.1 b).1,
       { p.2 with
           pushed := p.2.pushed + 1
           dropped := p.2.dropped + (if (ring_push p.1 b).2 then 1 else 0) }) := by
  simp [step, hskip]

theorem step_work_eq (p : State × Cnt) (n : Nat) :
    step p (Ev.work n) =
      ((work p.1 n).1,
       { p.2 with
           produced := p.2.produced + ((work p.1 n).2.getD []).length }) := rfl

/-- The state component of a push step is exactly the callback. -/
theorem step_push_fst (p : State × Cnt) (b : Block) :
    (step p (Ev.push b)).1 = (plutosdr_callback p.1 b).1 := by
  by_cases hskip : p.1.skipped < BUF_SKIP
  · rw [step_push_skip p b hskip]
    simp [plutosdr_callback, hskip]
  · rw [step_push_go p b hskip]
    simp [plutosdr_callback, hskip]

theorem Acct_step (p : State × Cnt) (e : Ev) (h : Acct p) :
    Acct (step p e) ∧ (step p e).1.buf_len = p.1.buf_len := by
  obtain ⟨hInv, hacct⟩ := h
  cases e with
  | push b =>
    by_cases hskip : p.1.skipped < BUF_SKIP
    · rw [step_push_skip p b hskip]
      refine ⟨⟨⟨hInv.1, hInv.2.1, hInv.2.2.1, hInv.2.2.2⟩, ?_⟩, rfl⟩
      simpa [Acct, cap] using hacct
    · rw [step_push_go p b hskip]
      obtain ⟨hInv', hnum, hlen, hoff, hsa, hskp, hrunf, hfull, hnotfull⟩ :=
        Inv_ring_push p.1 b hInv
      refine ⟨⟨hInv', ?_⟩, hlen⟩
      have hcap : cap (ring_push p.1 b).1 = cap p.1 := by
        simp [cap, hlen]
      show p.2.produced + (ring_push p.1 b).1.buf_used * cap (ring_push p.1 b).1 +
          (p.2.dropped + (if (ring_push p.1 b).2 then 1 else 0)) * cap (ring_push p.1 b).1
          = (p.2.pushed + 1) * cap (ring_push p.1 b).1 + (ring_push p.1 b).1.buf_offset
      rw [hcap, hoff]
      rcases hov : (ring_push p.1 b).2 with _ | _
      · have hused := hnotfull hov
        rw [hused]
        simp only [Bool.false_eq_true, if_false, Nat.add_zero, Nat.add_mul,
          Nat.one_mul]
        omega
      · have hused := hfull hov
        rw [hused]
        simp only [eq_self_iff_true, if_true, Nat.add_mul, Nat.one_mul]
        omega
  | work n =>
    rw [step_work_eq p n]
    by_cases hrun : p.1.running = false
    · have hw : work p.1 n = (p.1, none) := by
        simp [work, hrun]
      rw [hw]
      exact ⟨⟨hInv, by simpa [Acct] using hacct⟩, rfl⟩
    · have hw : work p.1 n = ((work_loop p.1 n).1, some (work_loop p.1 n).2) := by
        simp [work, hrun]
      rw [hw]
      obtain ⟨hInv', _, hlen, _, _, _, _, hwl⟩ := work_loop_spec p.1 n hInv
      refine ⟨⟨hInv', ?_⟩, hlen⟩
      have hcap : cap (work_loop p.1 n).1 = cap p.1 := by
        simp [cap, hlen]
      show p.2.produced + ((some (work_loop p.1 n).2).getD []).length +
          (work_loop p.1 n).1.buf_used * cap (work_loop p.1 n).1 +
          p.2.dropped * cap (work_loop p.1 n).1
          = p.2.pushed * cap (work_loop p.1 n).1 + (work_loop p.1 n).1.buf_offset
      rw [hcap, Option.getD_some]
      linarith [hacct, hwl]

/-- The `j`-th sample of a drain, for `j` inside the current block's
remaining span, is the converted pair of the block at `head` at the
intra-block offset plus `j`. -/
theorem work_loop_getD_first (s : State) (n j : Nat) (hused : s.buf_used ≠ 0)
    (hj : j < min n s.samp_avail) :
    (work_loop s n).2.getD j (0, 0) =
      conv16 (s.buf.getD s.buf_head []) (s.buf_offset + j) := by
  have hn : ¬(n = 0 ∨ s.buf_used = 0) := by
    have := Nat.min_le_left n s.samp_avail
    omega
  by_cases hex : s.samp_avail - min n s.samp_avail = 0
  · rw [work_loop_adv s n hn hex]
    dsimp only
    rw [List.getD_append _ _ _ _ (by rw [convertSlice_length]; exact hj)]
    exact convertSlice_getD _ _ _ _ _ hj
  · rw [work_loop_cont s n hn hex]
    dsimp only
    rw [List.getD_append _ _ _ _ (by rw [convertSlice_length]; exact hj)]
    exact convertSlice_getD _ _ _ _ _ hj

/-- The samples following the current block's remaining span come from
the next slot in ring order, `(head + 1) % N`, starting at offset 0:
consumption is FIFO across blocks. -/
theorem work_loop_getD_second (s : State) (n j : Nat)
    (hused : 2 ≤ s.buf_used) (hlo : s.samp_avail ≤ j)
    (hhi : j < min n (s.samp_avail + cap s)) :
    (work_loop s n).2.getD j (0, 0) =
      conv16 (s.buf.getD ((s.buf_head + 1) % s.buf_num) [])
        (j - s.samp_avail) := by
  have hn1 : j < n := lt_of_lt_of_le hhi (Nat.min_le_left _ _)
  have hn2 : j < s.samp_avail + cap s := lt_of_lt_of_le hhi (Nat.min_le_right _ _)
  have hn : ¬(n = 0 ∨ s.buf_used = 0) := by omega
  have hmin : min n s.samp_avail = s.samp_avail := by omega
  have hex : s.samp_avail - min n s.samp_avail = 0 := by omega
  rw [work_loop_adv s n hn hex]
  dsimp only
  rw [List.getD_append_right _ _ _ _
    (by rw [convertSlice_length, hmin]; exact hlo)]
  rw [convertSlice_length, hmin]
  have hcap : cap s = s.buf_len / BYTES_PER_SAMPLE := rfl
  have hj2 : j - s.samp_avail <
      min (n - s.samp_avail) (s.buf_len / BYTES_PER_SAMPLE) := by
    omega
  have hrec := work_loop_getD_first
    { s with buf_head := (s.buf_head + 1) % s.buf_num
             buf_used := s.buf_used - 1
             samp_avail := s.buf_len / BYTES_PER_SAMPLE
             buf_offset := 0 }
    (n - s.samp_avail) (j - s.samp_avail)
    (by show s.buf_used - 1 ≠ 0; omega) hj2
  dsimp only at hrec
  rw [hrec, Nat.zero_add]

theorem Acct_foldl (es : List Ev) (p : State × Cnt) (h : Acct p) :
    Acct (es.foldl step p) ∧ (es.foldl step p).1.buf_len = p.1.buf_len := by
  induction es generalizing p with
  | nil => exact ⟨h, rfl⟩
  | cons e es ih =>
    simp only [List.foldl_cons]
    obtain ⟨h1, h2⟩ := Acct_step p e h
    obtain ⟨h3, h4⟩ := ih (step p e) h1
    exact ⟨h3, h4.trans h2⟩

/-- The constructor always sets a positive slot count. -/
theorem init_buf_num_pos (a : Args) : 0 < init_buf_num a := by
  unfold init_buf_num
  by_cases h : a.buffers.getD 0 = 0
  · simp [h, BUF_NUM]
  · simp only [h, if_false]
    omega

/-- `_skipped` never decreases along a sequence of deliveries. -/
theorem skipped_foldl_mono (bs : List Block) (s : State) :
    s.skipped ≤ (bs.foldl (fun t c => (plutosdr_callback t c).1) s).skipped := by
  induction bs generalizing s with
  | nil => exact le_refl _
  | cons b bs ih =>
    simp only [List.foldl_cons]
    exact le_trans (plutosdr_callback_fields s b).2.2.2.2.2.2 (ih _)

/-- The drain loop never reads or writes `_lut`: substituting the table
commutes with the loop. -/
theorem work_loop_lut (s : State) (n : Nat) (l : List ℚ) :
    work_loop { s with lut := l } n =
      ({ (work_loop s n).1 with lut := l }, (work_loop s n).2) := by
  induction s, n using work_loop.induct with
  | case1 s n h =>
    rw [work_loop_stop _ n (by simpa using h), work_loop_stop s n h]
  | case2 s n h nout hex ih =>
    unfold nout at hex ih
    rw [work_loop_adv _ n (by simpa using h) (by simpa using hex),
        work_loop_adv s n h hex]
    dsimp only at ih ⊢
    rw [ih]
  | case3 s n h nout hex ih =>
    unfold nout at hex ih
    rw [work_loop_cont _ n (by simpa using h) (by simpa using hex),
        work_loop_cont s n h hex]
    dsimp only at ih ⊢
    rw [ih]

/-- C1: after the skip window, a callback delivery to a full ring
(`used = N`) stores the new block in the slot that was `head`, advances
`head` by one modulo `N`, leaves `used` unchanged and reports an
overflow (so the oldest unread block is the one dropped); a delivery to
a non-full ring stores the block at `tail = (head + used) % N` and
increments `used` by one without overflow. Consequently, along this and
any further sequence of deliveries, `used` never exceeds `N`. -/
theorem C1_push (s : State) (b : Block) (hskip : ¬ s.skipped < BUF_SKIP)
    (hInv : Inv s) :
    (s.buf_used = s.buf_num →
      plutosdr_callback s b =
        ({ s with buf := s.buf.set s.buf_head b
                  buf_head := (s.buf_head + 1) % s.buf_num }, true)) ∧
    (s.buf_used ≠ s.buf_num →
      plutosdr_callback s b =
        ({ s with buf := s.buf.set ((s.buf_head + s.buf_used) % s.buf_num) b
                  buf_used := s.buf_used + 1 }, false)) ∧
    ∀ bs : List Block,
      (bs.foldl (fun t c => (plutosdr_callback t c).1)
          (plutosdr_callback s b).1).buf_used ≤ s.buf_num := by
  have hcb : plutosdr_callback s b = ring_push s b := by
    simp [plutosdr_callback, hskip]
  refine ⟨?_, ?_, ?_⟩
  · intro hfull
    rw [hcb, ring_push_full s b hfull hInv.2.1]
  · intro hne
    rw [hcb, ring_push_not_full s b hne]
  · intro bs
    obtain ⟨hI, hnum, _⟩ :=
      Inv_foldl_callback bs (plutosdr_callback s b).1
        (Inv_plutosdr_callback s b hInv)
    have hnum2 : (plutosdr_callback s b).1.buf_num = s.buf_num :=
      (plutosdr_callback_fields s b).1
    have hb := hI.2.2.1
    rw [hnum, hnum2] at hb
    exact hb

theorem C1_push_witness :
    plutosdr_callback c1s [9, 9, 9, 9] =
      ({ c1s with buf := c1s.buf.set c1s.buf_head [9, 9, 9, 9]
                  buf_head := (c1s.buf_head + 1) % c1s.buf_num }, true) :=
  (C1_push c1s [9, 9, 9, 9] (by decide) (by decide)).1 (by decide)

/-- C2 counterexample: in a state with `running = false` and two unread
blocks still buffered, `work` returns `WORK_DONE` (modelled `none`)
instead of producing samples from the remaining blocks — refuting the
claimed equivalence "WORK_DONE iff not running and buffer empty". -/
theorem C2_counterexample :
    c2s.running = false ∧ c2s.buf_used = 2 ∧ (work c2s 4).2 = none := by
  decide

/-- C2 amended: `work` signals `WORK_DONE` if and only if `running` is
false — regardless of whether unread blocks remain, so blocks buffered
at stop time are abandoned, not drained; while running the call never
signals end-of-stream, even on an empty buffer (it returns a sample
list, possibly empty, instead of blocking or erroring). -/
theorem C2_amended (s : State) (n : Nat) :
    (work s n).2 = none ↔ s.running = false := by
  unfold work
  by_cases h : s.running = false
  · simp [h]
  · simp [h]

/-- C3 counterexample: a reachable state (constructed, started, one
delivery skipped, three blocks pushed, one `work` call already served)
in which a filled block exists (`used = 1`) and the system is running,
yet the next `work` call suspends on the condition variable because
`used < 3`: the prefill wait applies to every invocation, not only at
stream start, refuting "every later work call made while at least one
filled block exists returns immediately". -/
theorem C3_counterexample :
    c3s2.buf_used = 1 ∧ c3s2.running = true ∧
      work_wouldBlock c3s2 = true := by
  have e1 : work_loop c3s1 256 =
      ((work_loop c3m 128).1,
       convertSlice (c3s1.buf.getD c3s1.buf_head []) c3s1.buf_offset
           (min 256 c3s1.samp_avail) ++ (work_loop c3m 128).2) := by
    rw [work_loop_adv c3s1 256 (by decide) (by decide)]
    rfl
  have e2 : work_loop c3m 128 =
      ((work_loop c3m2 0).1,
       convertSlice (c3m.buf.getD c3m.buf_head []) c3m.buf_offset
           (min 128 c3m.samp_avail) ++ (work_loop c3m2 0).2) := by
    rw [work_loop_adv c3m 128 (by decide) (by decide)]
    rfl
  have e3 : work_loop c3m2 0 = (c3m2, []) :=
    work_loop_stop c3m2 0 (Or.inl rfl)
  have hused : (work_loop c3s1 256).1.buf_used = 1 := by
    rw [e1, e2, e3]
    decide
  have hrun2 : (work_loop c3s1 256).1.running = true := by
    rw [e1, e2, e3]
    decide
  have hw : work c3s1 256 =
      ((work_loop c3s1 256).1, some (work_loop c3s1 256).2) := by
    simp [work, show c3s1.running = true from by decide]
  refine ⟨?_, ?_, ?_⟩
  · show (work c3s1 256).1.buf_used = 1
    rw [hw]
    exact hused
  · show (work c3s1 256).1.running = true
    rw [hw]
    exact hrun2
  · show work_wouldBlock (work c3s1 256).1 = true
    rw [hw]
    unfold work_wouldBlock
    rw [hused, hrun2]
    decide

/-- C3 amended: a `work` call suspends on the condition variable exactly
when `used < 3` and `running` hold at entry — in every invocation, not
only at stream start; the drain loop contains no wait, so once past the
entry wait the call runs to completion and returns the drained samples
(in particular it never blocks after producing a sample within the same
invocation). -/
theorem C3_amended (s : State) (n : Nat) :
    (work_wouldBlock s = true ↔ (s.buf_used < 3 ∧ s.running = true)) ∧
    (s.running = true → (work s n).2 = some (work_loop s n).2) := by
  constructor
  · simp [work_wouldBlock]
  · intro h
    simp [work, h]

theorem C3_amended_witness :
    (work c3s1 256).2 = some (work_loop c3s1 256).2 :=
  (C3_amended c3s1 256).2 (by decide)

/-- C4: every sample emitted by `work` is the fixed linear scaling
`(I / 2048, Q / 2048)` (see `conv16`) of the corresponding buffered
16-bit signed interleaved pair: output sample `j` within the head
block's remaining span comes from the block at `head` at intra-block
offset `buf_offset + j`, and the samples beyond that span continue in
FIFO order into the next slot `(head + 1) % N` starting at offset 0.
Over `ℚ` the scaling is exact for every code, in particular for the
boundary codes -32768 and 32767 and the midpoint 0 (see the witness). -/
theorem C4_scaling (s : State) (n j : Nat) (hrun : s.running = true)
    (hused : s.buf_used ≠ 0) :
    (j < min n s.samp_avail →
      ((work s n).2.getD []).getD j (0, 0) =
        conv16 (s.buf.getD s.buf_head []) (s.buf_offset + j)) ∧
    (2 ≤ s.buf_used → s.samp_avail ≤ j → j < min n (s.samp_avail + cap s) →
      ((work s n).2.getD []).getD j (0, 0) =
        conv16 (s.buf.getD ((s.buf_head + 1) % s.buf_num) [])
          (j - s.samp_avail)) := by
  have hw : (work s n).2 = some (work_loop s n).2 := by
    simp [work, hrun]
  rw [hw, Option.getD_some]
  constructor
  · intro hj
    exact work_loop_getD_first s n j hused hj
  · intro h2 hlo hhi
    exact work_loop_getD_second s n j h2 hlo hhi

theorem C4_scaling_witness :
    ((work c4s 3).2.getD []).getD 0 (0, 0) = (-16, 32767 / 2048) ∧
    ((work c4s 3).2.getD []).getD 1 (0, 0) = (0, 5 / 2048) ∧
    ((work c4s 3).2.getD []).getD 2 (0, 0) = (100 / 2048, -100 / 2048) := by
  refine ⟨?_, ?_, ?_⟩
  · rw [(C4_scaling c4s 3 0 (by decide) (by decide)).1 (by decide)]
    norm_num [c4s, conv16, List.getD]
  · rw [(C4_scaling c4s 3 1 (by decide) (by decide)).1 (by decide)]
    norm_num [c4s, conv16, List.getD]
  · rw [(C4_scaling c4s 3 2 (by decide) (by decide)).2 (by decide) (by decide)
      (by decide)]
    norm_num [c4s, conv16, List.getD]

/-- C5: over any interleaving of deliveries and `work` calls starting
from an empty invariant-satisfying buffer, if at the end every block has
been fully consumed (buffer drained and intra-block offset zero), the
total number of samples produced equals (blocks pushed past the skip
window - blocks dropped by overflow) * block capacity in samples
(`buf_len / 4`). The drain loop advances `head` and decrements `used`
exactly once per fully consumed block, which is what makes the equation
hold. -/
theorem C5_conservation (s0 : State) (es : List Ev) (hInv : Inv s0)
    (hu0 : s0.buf_used = 0) (ho0 : s0.buf_offset = 0)
    (hused : (es.foldl step (s0, ⟨0, 0, 0⟩)).1.buf_used = 0)
    (hoff : (es.foldl step (s0, ⟨0, 0, 0⟩)).1.buf_offset = 0) :
    (es.foldl step (s0, ⟨0, 0, 0⟩)).2.produced =
      ((es.foldl step (s0, ⟨0, 0, 0⟩)).2.pushed
          - (es.foldl step (s0, ⟨0, 0, 0⟩)).2.dropped)
        * (s0.buf_len / BYTES_PER_SAMPLE) := by
  have hstart : Acct (s0, ⟨0, 0, 0⟩) := by
    refine ⟨hInv, ?_⟩
    show 0 + s0.buf_used * cap s0 + 0 * cap s0 = 0 * cap s0 + s0.buf_offset
    rw [hu0, ho0]
    simp
  obtain ⟨⟨hI, hacct⟩, hlen⟩ := Acct_foldl es (s0, ⟨0, 0, 0⟩) hstart
  have hcapf : cap (es.foldl step (s0, ⟨0, 0, 0⟩)).1 =
      s0.buf_len / BYTES_PER_SAMPLE := by
    simp [cap, hlen]
  rw [hcapf, hused, hoff] at hacct
  simp only [Nat.zero_mul, Nat.add_zero] at hacct
  rw [Nat.sub_mul]
  exact Nat.eq_sub_of_add_eq hacct

theorem C5_conservation_witness :
    (c5es.foldl step (c5s, ⟨0, 0, 0⟩)).2.produced =
      ((c5es.foldl step (c5s, ⟨0, 0, 0⟩)).2.pushed
          - (c5es.foldl step (c5s, ⟨0, 0, 0⟩)).2.dropped)
        * (c5s.buf_len / BYTES_PER_SAMPLE) := by
  have hp : step (step (step ((c5s, ⟨0, 0, 0⟩) : State × Cnt)
      (Ev.push [1, 2, 3, 4])) (Ev.push [5, 6, 7, 8]))
      (Ev.push [9, 10, 11, 12]) = (s5p3, ⟨3, 1, 0⟩) := by
    decide
  have hfold : c5es.foldl step (c5s, ⟨0, 0, 0⟩) =
      step (s5p3, ⟨3, 1, 0⟩) (Ev.work 10) := by
    show step (step (step (step ((c5s, ⟨0, 0, 0⟩) : State × Cnt)
        (Ev.push [1, 2, 3, 4])) (Ev.push [5, 6, 7, 8]))
        (Ev.push [9, 10, 11, 12])) (Ev.work 10) = _
    rw [hp]
  have e1 : work_loop s5p3 10 =
      ((work_loop s5m 8).1,
       convertSlice (s5p3.buf.getD s5p3.buf_head []) s5p3.buf_offset
           (min 10 s5p3.samp_avail) ++ (work_loop s5m 8).2) := by
    rw [work_loop_adv s5p3 10 (by decide) (by decide)]
    rfl
  have e2 : work_loop s5m 8 =
      ((work_loop s5m2 6).1,
       convertSlice (s5m.buf.getD s5m.buf_head []) s5m.buf_offset
           (min 8 s5m.samp_avail) ++ (work_loop s5m2 6).2) := by
    rw [work_loop_adv s5m 8 (by decide) (by decide)]
    rfl
  have e3 : work_loop s5m2 6 = (s5m2, []) :=
    work_loop_stop s5m2 6 (Or.inr (by decide))
  have hw : work s5p3 10 =
      ((work_loop s5p3 10).1, some (work_loop s5p3 10).2) := by
    simp [work, show s5p3.running = true from rfl]
  have hused : (c5es.foldl step (c5s, ⟨0, 0, 0⟩)).1.buf_used = 0 := by
    rw [hfold, step_work_eq]
    show (work s5p3 10).1.buf_used = 0
    rw [hw]
    show (work_loop s5p3 10).1.buf_used = 0
    rw [e1, e2, e3]
    decide
  have hoff : (c5es.foldl step (c5s, ⟨0, 0, 0⟩)).1.buf_offset = 0 := by
    rw [hfold, step_work_eq]
    show (work s5p3 10).1.buf_offset = 0
    rw [hw]
    show (work_loop s5p3 10).1.buf_offset = 0
    rw [e1, e2, e3]
    decide
  exact C5_conservation c5s c5es (by decide) (by decide) (by decide) hused hoff

/-- C6: from a fresh state (`skipped = 0`), the first `BUF_SKIP = 1`
delivery leaves the ring state (slots, head, used) unchanged and
reports no overflow — it is discarded unconditionally; once
`skipped ≥ BUF_SKIP` every delivery runs the ring-buffer push, and
`skipped` never decreases along further deliveries, so every delivery
after the skip window is pushed into the ring buffer. -/
theorem C6_skip (s : State) (b : Block) (hfresh : s.skipped = 0) :
    (plutosdr_callback s b).1.buf = s.buf ∧
    (plutosdr_callback s b).1.buf_head = s.buf_head ∧
    (plutosdr_callback s b).1.buf_used = s.buf_used ∧
    (plutosdr_callback s b).2 = false ∧
    (plutosdr_callback s b).1.skipped = BUF_SKIP ∧
    (∀ t : State, ∀ c : Block, BUF_SKIP ≤ t.skipped →
      plutosdr_callback t c = ring_push t c) ∧
    (∀ bs : List Block, BUF_SKIP ≤
      (bs.foldl (fun t c => (plutosdr_callback t c).1)
        (plutosdr_callback s b).1).skipped) := by
  have h1 : plutosdr_callback s b =
      ({ s with skipped := s.skipped + 1 }, false) := by
    have : s.skipped < BUF_SKIP := by
      rw [hfresh]
      decide
    simp [plutosdr_callback, this]
  have h2 : (plutosdr_callback s b).1.skipped = BUF_SKIP := by
    rw [h1]
    show s.skipped + 1 = BUF_SKIP
    rw [hfresh]
    decide
  refine ⟨by rw [h1], by rw [h1], by rw [h1], by rw [h1], h2, ?_, ?_⟩
  · intro t c ht
    simp [plutosdr_callback, Nat.not_lt.mpr ht]
  · intro bs
    exact le_trans (le_of_eq h2.symm)
      (skipped_foldl_mono bs (plutosdr_callback s b).1)

theorem C6_skip_witness :
    (plutosdr_callback c6s [7, 7]).1.buf = c6s.buf :=
  (C6_skip c6s [7, 7] (by decide)).1

/-- C7 counterexample: supplying `buflen=0` — and zero is a multiple of
512 — still forces the slot length to the default 819200 instead of
keeping the supplied value, refuting "forced to the default exactly when
the supplied buflen value is not a multiple of 512". -/
theorem C7_counterexample :
    (0 : Nat) % 512 = 0 ∧ (construct ⟨none, some 0⟩).buf_len = BUF_LEN ∧
    BUF_LEN ≠ 0 := by
  refine ⟨rfl, rfl, by decide⟩

/-- C7 amended: after construction the ring slot count equals the parsed
`buffers` value when present and nonzero and defaults to 15 otherwise;
the per-slot byte length equals the supplied `buflen` when that value is
nonzero and a multiple of 512, and is forced to the default
819200 = 512*16*100 exactly when the supplied value is zero (or absent)
or not a multiple of 512. -/
theorem C7_amended (a : Args) :
    ((a.buffers.getD 0 ≠ 0 → (construct a).buf_num = a.buffers.getD 0) ∧
     (a.buffers.getD 0 = 0 → (construct a).buf_num = BUF_NUM)) ∧
    ((a.buflen.getD 0 ≠ 0 → a.buflen.getD 0 % 512 = 0 →
        (construct a).buf_len = a.buflen.getD 0) ∧
     (a.buflen.getD 0 = 0 ∨ a.buflen.getD 0 % 512 ≠ 0 →
        (construct a).buf_len = BUF_LEN)) := by
  refine ⟨⟨?_, ?_⟩, ?_, ?_⟩
  · intro h
    show init_buf_num a = a.buffers.getD 0
    unfold init_buf_num
    rw [if_neg h]
  · intro h
    show init_buf_num a = BUF_NUM
    unfold init_buf_num
    rw [if_pos h]
  · intro h1 h2
    show init_buf_len a = a.buflen.getD 0
    unfold init_buf_len
    rw [if_neg (by simp [h1, h2])]
  · intro h
    show init_buf_len a = BUF_LEN
    unfold init_buf_len
    rw [if_pos h]

theorem C7_amended_witness :
    (construct ⟨some 7, some 1024⟩).buf_num = 7 ∧
    (construct ⟨some 7, some 1024⟩).buf_len = 1024 := by
  constructor
  · have h := (C7_amended ⟨some 7, some 1024⟩).1.1 (by decide)
    simpa using h
  · have h := (C7_amended ⟨some 7, some 1024⟩).2.1 (by decide) (by decide)
    simpa using h

/-- C8: the structural invariant — consumer cursor satisfying
`samp_avail + buf_offset = buf_len / 4` (`BYTES_PER_SAMPLE = 4`) and
buffer counters satisfying `used ≤ N` and `head < N` (both are `Nat`, so
nonnegative) — holds after construction with any arguments and is
preserved by every callback delivery and every `work` call. -/
theorem C8_invariant (a : Args) (s : State) (b : Block) (n : Nat)
    (hInv : Inv s) :
    Inv (construct a) ∧ Inv (plutosdr_callback s b).1 ∧ Inv (work s n).1 := by
  refine ⟨⟨?_, ?_, ?_, ?_⟩, Inv_plutosdr_callback s b hInv, ?_⟩
  · exact init_buf_num_pos a
  · exact init_buf_num_pos a
  · exact Nat.zero_le _
  · show init_buf_len a / BYTES_PER_SAMPLE + 0 = cap (construct a)
    simp [cap, construct]
  · unfold work
    by_cases h : s.running = false
    · simp only [h, if_true]
      exact hInv
    · simp only [h, if_false]
      exact (work_loop_spec s n hInv).1

theorem C8_invariant_witness : Inv (construct ⟨none, none⟩) :=
  (C8_invariant ⟨none, none⟩ c8s [] 1 (by decide)).1

/-- C9: `stop` is idempotent: calling it twice yields exactly the same
state and the same `true` result as calling it once, it leaves the slot
array untouched (the only free of the slots is in the destructor, which
`stop` never runs, so no double-free), and its effect is the same when
the acquisition loop has already exited on its own (the loop exit also
just clears `running`). In the model `stop` is a total function, so both
calls return — no deadlock. -/
theorem C9_stop_idem (s : State) :
    stop (stop s).1 = stop s ∧
    (stop s).2 = true ∧
    (stop (stop s).1).2 = true ∧
    (stop s).1.buf = s.buf ∧
    (stop s).1.buf_num = s.buf_num ∧
    stop (plutosdr_wait_exit s) = stop s :=
  ⟨rfl, rfl, rfl, rfl, rfl, rfl⟩

/-- C10: the output of `work` is independent of the 256-entry `_lut`
table: on two states that differ only in the `lut` contents, `work`
produces identical samples and identical results (`WORK_DONE` or the
produced count), and the successor states again agree on every field
except `lut` (each keeps its own table) — the 16-bit conversion path
never consults the table. -/
theorem C10_lut_independence (s : State) (l : List ℚ) (n : Nat) :
    (work { s with lut := l } n).2 = (work s n).2 ∧
    (work { s with lut := l } n).1 = { (work s n).1 with lut := l } := by
  by_cases h : s.running = false
  · have hw1 : work s n = (s, none) := by
      simp [work, h]
    have hw2 : work { s with lut := l } n = ({ s with lut := l }, none) := by
      simp [work, h]
    rw [hw1, hw2]
    exact ⟨rfl, rfl⟩
  · have hr : s.running = true := by
      simpa using h
    have hw1 : work s n = ((work_loop s n).1, some (work_loop s n).2) := by
      simp [work, hr]
    have hw2 : work { s with lut := l } n =
        ((work_loop { s with lut := l } n).1,
         some (work_loop { s with lut := l } n).2) := by
      simp [work, hr]
    rw [hw1, hw2, work_loop_lut s n l]
    exact ⟨rfl, rfl⟩

end Pluto
